import Mathlib

/-!
Verification of the table-extraction core of the repository
(extract_universal.py, extract_smart_pdf.py, extract_hierarchical.py).

Strings are modelled as `List Char`.  Python `str.upper`, `str.replace`,
`str.split`, `in` (substring), `startswith` and `int(...)` over digit
strings are embedded as executable functions below.
-/

/-- Uppercase a character sequence (Python `str.upper` on ASCII input). -/
def upperL (s : List Char) : List Char := s.map Char.toUpper

/-- Numeric value of a digit string (Python `int` on an all-digit string). -/
def digitsVal (s : List Char) : Nat :=
  s.foldl (fun acc c => acc * 10 + (c.toNat - 48)) 0

/-- Python substring test `needle in haystack`. -/
def containsSub (haystack needle : List Char) : Bool :=
  match haystack with
  | [] => needle.isEmpty
  | _ :: t => needle.isPrefixOf haystack || containsSub t needle

/-- Python whitespace characters relevant to `str.strip` / `str.split`. -/
def isSpaceChar (c : Char) : Bool :=
  c = ' ' || c = '\t' || c = '\n' || c = '\r' || c = '\x0b' || c = '\x0c'

/-- Python `str.split()` with no argument: split on whitespace runs,
dropping empty fields. -/
def splitWS (s : List Char) : List (List Char) :=
  (s.foldr
    (fun c acc =>
      if isSpaceChar c then [] :: acc
      else
        match acc with
        | [] => [[c]]
        | w :: ws => (c :: w) :: ws)
    [[]]).filter (fun w => !w.isEmpty)

/-- Python `str.strip()`: drop leading and trailing whitespace. -/
def stripWS (s : List Char) : List Char :=
  ((s.dropWhile isSpaceChar).reverse.dropWhile isSpaceChar).reverse

/-- A normalized cell value, the result of token normalization in
`smart_parse_table` (extract_universal.py).  `floatV s` records the
cleaned digit-and-dot string `s` that Python passes to `float(s)`;
`intV` carries the value of `int(clean)` (clean is all digits, so it
is a natural number). -/
inductive Cell where
  | nullV : Cell
  | intV : Nat → Cell
  | floatV : List Char → Cell
  | textV : List Char → Cell
  deriving DecidableEq, Repr

/-- The OCR-confusion substitution of extract_universal.py lines 282-284:
`O→0, o→0, l→1, I→1, S→5, Z→2` (note: this file does not substitute
`z` or `s`). -/
def substU (c : Char) : Char :=
  if c = 'O' then '0'
  else if c = 'o' then '0'
  else if c = 'l' then '1'
  else if c = 'I' then '1'
  else if c = 'S' then '5'
  else if c = 'Z' then '2'
  else c

/-- The `clean` of extract_universal.py lines 279-284: strip commas and
spaces, then apply the OCR-confusion substitutions. -/
def cleanU (part : List Char) : List Char :=
  (part.filter (fun c => c ≠ ',' && c ≠ ' ')).map substU

/-- Body of the token normalization of extract_universal.py lines 286-299,
as a function of the cleaned string `clean` and the original token `part`.
`float(clean)` succeeds on a nonempty digits-and-dots string exactly when
it contains a single dot; otherwise Python raises ValueError and the code
keeps the token as text. -/
def parse_token_body (clean part : List Char) : Cell :=
  if clean = ['-'] ∨ clean = ['—'] then Cell.nullV
  else if (clean.filter (fun c => c ≠ '.')) ≠ [] ∧
          (clean.filter (fun c => c ≠ '.')).all Char.isDigit then
    if '.' ∈ clean then
      if clean.count '.' = 1 then Cell.floatV clean else Cell.textV part
    else Cell.intV (digitsVal clean)
  else Cell.textV part

/-- Token normalization: first pass of `smart_parse_table`
(extract_universal.py lines 272-299). -/
def parse_token (part : List Char) : Cell :=
  parse_token_body (cleanU part) part

/-- The ordered decision table of the spec's Number Normalizer
(modelled from the spec's words, to be compared with `parse_token`):
dash → Null; all-digit-after-cleaning → Integer of the cleaned string;
decimal form (one decimal point, otherwise digits, at least one digit)
→ Float; else → Text. -/
def c2_decision_table (part : List Char) : Cell :=
  if cleanU part = ['-'] ∨ cleanU part = ['—'] then Cell.nullV
  else if cleanU part ≠ [] ∧ (cleanU part).all Char.isDigit then
    Cell.intV (digitsVal (cleanU part))
  else if (cleanU part).count '.' = 1 ∧
          ((cleanU part).filter (fun c => c ≠ '.')).all Char.isDigit ∧
          ((cleanU part).filter (fun c => c ≠ '.')) ≠ [] then
    Cell.floatV (cleanU part)
  else Cell.textV part

/-- Test for the `'ALL' 'SEXES'` adjacent-token pattern of
extract_universal.py lines 306-310. -/
def isAllSexes (v w : Cell) : Bool :=
  match v, w with
  | Cell.textV s, Cell.textV t => upperL s = "ALL".toList && upperL t = "SEXES".toList
  | _, _ => false

/-- Second pass of `smart_parse_table` (extract_universal.py lines 301-359):
merge the literal pair "ALL" "SEXES", and under French number format merge a
leading integer `< 1000` with following 3-digit groups in `100..999`
(`max_groups = 2` when the leading value is `≤ 4`, otherwise 1).  A merged
group contributes exactly three digits (`zfill(3)` of a value in `100..999`),
so string concatenation of the groups equals base-1000 accumulation. -/
def combineValues (uses_french_format : Bool) : List Cell → List Cell
  | [] => []
  | [v] => [v]
  | [v, w] =>
    if isAllSexes v w then [Cell.textV ("ALL SEXES".toList)]
    else
      match v, w with
      | Cell.intV a, Cell.intV g1 =>
        if uses_french_format = true ∧ a < 1000 ∧ 100 ≤ g1 ∧ g1 ≤ 999 then
          [Cell.intV (a * 1000 + g1)]
        else v :: combineValues uses_french_format [w]
      | _, _ => v :: combineValues uses_french_format [w]
  | v :: w :: x :: rest =>
    if isAllSexes v w then
      Cell.textV ("ALL SEXES".toList) :: combineValues uses_french_format (x :: rest)
    else
      match v, w with
      | Cell.intV a, Cell.intV g1 =>
        if uses_french_format = true ∧ a < 1000 ∧ 100 ≤ g1 ∧ g1 ≤ 999 then
          if a ≤ 4 then
            match x with
            | Cell.intV g2 =>
              if 100 ≤ g2 ∧ g2 ≤ 999 then
                Cell.intV ((a * 1000 + g1) * 1000 + g2) ::
                  combineValues uses_french_format rest
              else Cell.intV (a * 1000 + g1) :: combineValues uses_french_format (x :: rest)
            | _ => Cell.intV (a * 1000 + g1) :: combineValues uses_french_format (x :: rest)
          else Cell.intV (a * 1000 + g1) :: combineValues uses_french_format (x :: rest)
        else v :: combineValues uses_french_format (w :: x :: rest)
      | _, _ => v :: combineValues uses_french_format (w :: x :: rest)

/-- A regex word character (`\w` over the ASCII inputs of this dataset). -/
def isWordCharP (c : Char) : Bool := c.isAlpha || c.isDigit || c = '_'

/-- Whether a word boundary sits after a match ending in `last` when the
following character is `next` (none at end of string). -/
def okEndNum (last : Char) (next : Option Char) : Bool :=
  if isWordCharP last then
    match next with
    | none => true
    | some n => !isWordCharP n
  else
    match next with
    | none => false
    | some n => isWordCharP n

/-- Backtracking over the greedy `[,\d]*` tail: given the candidate run
reversed and the character following it, the longest prefix length `≥ 2`
of the run that ends on a word boundary. -/
def btNum : List Char → Option Char → Option Nat
  | [], _ => none
  | c :: cs, next =>
    if okEndNum c next && decide (cs.length + 1 ≥ 2) then some (cs.length + 1)
    else btNum cs (some c)

/-- Count of matches of the Python regex `\b\d{2,}[,\d]*\b` (re.findall
semantics: leftmost matches, scanning resumes after each match), used by
`smart_parse_table` to count numeric tokens in a row. -/
def countNumsF : Nat → Option Char → List Char → Nat
  | 0, _, _ => 0
  | _ + 1, _, [] => 0
  | fuel + 1, prev, c :: cs =>
    let startOk := match prev with
      | none => true
      | some p => !isWordCharP p
    let twoDigits := c.isDigit && (match cs with
      | d :: _ => d.isDigit
      | [] => false)
    if startOk && twoDigits then
      let run := (c :: cs).takeWhile (fun x => x.isDigit || x = ',')
      let rest := (c :: cs).drop run.length
      match btNum run.reverse rest.head? with
      | some l => 1 + countNumsF fuel ((run.take l).getLast?) ((c :: cs).drop l)
      | none => countNumsF fuel (some c) cs
    else countNumsF fuel (some c) cs

/-- The `numbers_count` of extract_universal.py line 160-161:
`len(re.findall(r'\b\d{2,}[,\d]*\b', row_text))`. -/
def numbers_count (s : List Char) : Nat := countNumsF (s.length + 1) none s

/-- Count of matches of the Python regex `\b[A-Za-z]{3,}\b`: maximal
alphabetic runs of length at least 3 flanked by non-word characters
(or the string ends).  A failed run is skipped whole: every interior
position is preceded by a letter, so no word boundary exists there. -/
def countWordsF : Nat → Option Char → List Char → Nat
  | 0, _, _ => 0
  | _ + 1, _, [] => 0
  | fuel + 1, prev, c :: cs =>
    let startOk := match prev with
      | none => true
      | some p => !isWordCharP p
    if startOk && c.isAlpha then
      let run := (c :: cs).takeWhile Char.isAlpha
      let rest := (c :: cs).drop run.length
      let endOk := match rest.head? with
        | none => true
        | some n => !isWordCharP n
      if decide (run.length ≥ 3) && endOk then 1 + countWordsF fuel run.getLast? rest
      else countWordsF fuel run.getLast? rest
    else countWordsF fuel (some c) cs

/-- The `words_count` of extract_universal.py lines 162-163:
`len(re.findall(r'\b[A-Za-z]{3,}\b', row_text))`. -/
def words_count (s : List Char) : Nat := countWordsF (s.length + 1) none s

/-- The `header_keywords` of extract_universal.py lines 167-169. -/
def header_keywords : List (List Char) :=
  ["TABLE", "POPULATION", "COUNT", "AREA/", "REGION", "DISTRICT", "COLUMN",
   "VOTERS", "VOTES", "PERCENTAGE", "RELIGION", "CATEGORY"].map String.toList

/-- The `section_keywords` of extract_universal.py lines 174-175. -/
def section_keywords : List (List Char) :=
  ["OVERALL", "RURAL", "URBAN", "DISTRICT", "DIVISION", "CONSTITUENCY",
   "PROVINCE", "STATE", "COUNTY", "REGION"].map String.toList

/-- The `has_header` of extract_universal.py line 171. -/
def has_header (row_text : List Char) : Bool :=
  header_keywords.any fun kw => containsSub (upperL row_text) kw

/-- The `is_section` of extract_universal.py line 177. -/
def is_section (row_text : List Char) : Bool :=
  (section_keywords.any fun kw => containsSub (upperL row_text) kw) &&
    (numbers_count row_text == 0)

/-- The `has_data` of extract_universal.py lines 187-188. -/
def has_data (row_text : List Char) : Bool :=
  decide (words_count row_text ≥ 1) &&
    (decide (numbers_count row_text ≥ 1) || decide (row_text.count '-' ≥ 3))

/-- A data candidate of `smart_parse_table` (extract_universal.py lines
202-206): the Python dict `{'region': ..., 'section': ..., 'row': ...}`;
`sect` models the `'section'` key (`section` is reserved in Lean). -/
structure DataCand where
  region : Option (List Char)
  sect : Option (List Char)
  row : List Char
  deriving DecidableEq, Repr

/-- Loop state of the classification pass of `smart_parse_table`
(extract_universal.py lines 151-206). -/
structure UState where
  current_region : Option (List Char)
  current_section : Option (List Char)
  header_candidates : List (List Char)
  data_candidates : List DataCand
  deriving DecidableEq, Repr

def initU : UState := ⟨none, none, [], []⟩

/-- One iteration of the classification loop of `smart_parse_table`
(extract_universal.py lines 156-206), on the joined row text. -/
def stepU (st : UState) (row_text : List Char) : UState :=
  if has_header row_text && (numbers_count row_text == 0) then
    { st with header_candidates := st.header_candidates ++ [row_text] }
  else if is_section row_text then
    if containsSub (upperL row_text) "DISTRICT".toList ||
       containsSub (upperL row_text) "DIVISION".toList then
      { st with current_region := some row_text, current_section := none }
    else { st with current_section := some row_text }
  else if has_data row_text then
    { st with data_candidates :=
        st.data_candidates ++ [⟨st.current_region, st.current_section, row_text⟩] }
  else st

/-- The classification pass of `smart_parse_table` over all rows in
original order. -/
def smart_parse_rows (rows : List (List Char)) : UState :=
  rows.foldl stepU initU

/-- The `column_keywords` of extract_universal.py lines 214-215. -/
def column_keywords : List (List Char) :=
  ["SEX", "TOTAL", "MUSLIM", "CHRISTIAN", "HINDU", "MALE", "FEMALE", "AREA",
   "COUNT", "VOTES", "VOTERS"].map String.toList

/-- The `keyword_matches` of extract_universal.py line 217. -/
def keyword_matches (candidate_text : List Char) : Nat :=
  (column_keywords.filter fun kw => containsSub (upperL candidate_text) kw).length

/-- Header choice of extract_universal.py lines 209-221: scan candidates in
document order, pick the first with at least 3 column-keyword matches. -/
def choose_best_header (cands : List (List Char)) : Option (List Char) :=
  cands.find? fun c => decide (keyword_matches c ≥ 3)

/-- The OCR-confusion substitution of extract_smart_pdf.py lines 302-305:
`O→0, o→0, Z→2, z→2, S→5, s→5, l→1, I→1`. -/
def substS (c : Char) : Char :=
  if c = 'O' then '0'
  else if c = 'o' then '0'
  else if c = 'Z' then '2'
  else if c = 'z' then '2'
  else if c = 'S' then '5'
  else if c = 's' then '5'
  else if c = 'l' then '1'
  else if c = 'I' then '1'
  else c

/-- Per-token number parse of `parse_census_data` (extract_smart_pdf.py
lines 300-310).  `some none` means a dash was appended as Null,
`some (some n)` an integer was appended, `none` the token was skipped. -/
def smartParseToken (part : List Char) : Option (Option Nat) :=
  if (part.filter (fun c => c ≠ ',')).map substS = ['-'] ∨
     (part.filter (fun c => c ≠ ',')).map substS = ['—'] then some none
  else if (part.filter (fun c => c ≠ ',')).map substS ≠ [] ∧
          ((part.filter (fun c => c ≠ ',')).map substS).all Char.isDigit then
    some (some (digitsVal ((part.filter (fun c => c ≠ ',')).map substS)))
  else none

/-- The `re.sub(r'^CAT\s+', '', line, flags=re.IGNORECASE)`: drop a
case-insensitive prefix `cat` when followed by at least one whitespace
character, together with that whitespace run. -/
def stripCat (cat line : List Char) : List Char :=
  let n := cat.length
  if upperL (line.take n) = cat &&
     (match (line.drop n).head? with
      | some c => isSpaceChar c
      | none => false) then
    (line.drop n).dropWhile isSpaceChar
  else line

/-- A structured row of `parse_census_data` (extract_smart_pdf.py lines
313-326): REGION, SECTION, SEX and the first seven parsed numbers
(TOTAL, MUSLIM, CHRISTIAN, HINDU, QADIANI_AHMADI, SCHEDULED_CASTES,
OTHERS); a dash is carried as `none`. -/
structure SRecord where
  region : List Char
  sect : List Char
  sex : List Char
  values : List (Option Nat)
  deriving DecidableEq, Repr

/-- Loop state of `parse_census_data` (extract_smart_pdf.py lines 246-328). -/
structure SState where
  current_region : Option (List Char)
  current_section : Option (List Char)
  parsed_data : List SRecord
  deriving DecidableEq, Repr

/-- The `region/section keywords` of extract_smart_pdf.py lines 266-267. -/
def smart_region_keywords : List (List Char) :=
  ["DISTRICT", "SUB-DIVISION", "CONSTITUENCY", "DIVISION", "TEHSIL",
   "TALUKA"].map String.toList

/-- Sex-category extraction of extract_smart_pdf.py lines 280-294:
the recognized category label and the line with the matched prefix and
following whitespace removed (checked in the order ALL SEXES,
TRANSGENDER, MALE, FEMALE). -/
def smart_sex (line : List Char) : List Char × List Char :=
  if "ALL SEXES".toList.isPrefixOf (upperL line) then
    ("ALL".toList, stripCat ("ALL SEXES".toList) line)
  else if "TRANSGENDER".toList.isPrefixOf (upperL line) then
    ("TRANSGENDER".toList, stripCat ("TRANSGENDER".toList) line)
  else if "MALE".toList.isPrefixOf (upperL line) then
    ("MALE".toList, stripCat ("MALE".toList) line)
  else
    ("FEMALE".toList, stripCat ("FEMALE".toList) line)

/-- The parsed number sequence of a data line (extract_smart_pdf.py
lines 296-310). -/
def smart_numbers (line : List Char) : List (Option Nat) :=
  (splitWS (smart_sex line).2).filterMap smartParseToken

/-- One iteration of the line loop of `parse_census_data`
(extract_smart_pdf.py lines 264-326).  Note that a region line does NOT
clear `current_section`. -/
def step_smart (st : SState) (line : List Char) : SState :=
  if smart_region_keywords.any (fun kw => containsSub (upperL line) kw) then
    { st with current_region := some line }
  else if upperL line = "OVERALL".toList ∨ upperL line = "RURAL".toList ∨
          upperL line = "URBAN".toList then
    { st with current_section := some (upperL line) }
  else if "ALL SEXES".toList.isPrefixOf (upperL line) ||
          "MALE".toList.isPrefixOf (upperL line) ||
          "FEMALE".toList.isPrefixOf (upperL line) ||
          "TRANSGENDER".toList.isPrefixOf (upperL line) then
    if (smart_numbers line).length ≥ 7 then
      { st with parsed_data := st.parsed_data ++
          [⟨st.current_region.getD [], st.current_section.getD [],
            (smart_sex line).1, (smart_numbers line).take 7⟩] }
    else st
  else st

/-- The `parse_census_data` over the extracted text lines, in original order. -/
def parse_census_data (lines : List (List Char)) : SState :=
  lines.foldl step_smart ⟨none, none, []⟩

/-- Python `int(t)` on a separator-free token: optional sign followed by
digits.  (Underscore digit grouping and surrounding whitespace cannot
occur in tokens produced by `str.split()` on this data.) -/
def intLit? (t : List Char) : Option Int :=
  match t with
  | '-' :: rest =>
    if rest ≠ [] ∧ rest.all Char.isDigit then some (-(digitsVal rest : Int)) else none
  | '+' :: rest =>
    if rest ≠ [] ∧ rest.all Char.isDigit then some ((digitsVal rest : Int)) else none
  | _ => if t ≠ [] ∧ t.all Char.isDigit then some ((digitsVal t : Int)) else none

/-- Whether Python `float(t)` succeeds on a separator-free token of this
data: optional sign, exactly one decimal point, at least one digit and
nothing else.  (Exponent, inf and nan literals do not occur here.) -/
def isFloatLit (t : List Char) : Bool :=
  let body := match t with
    | '-' :: rest => rest
    | '+' :: rest => rest
    | _ => t
  body.count '.' = 1 && (body.filter (fun c => c ≠ '.')).all Char.isDigit &&
    !(body.filter (fun c => c ≠ '.')).isEmpty

/-- A value cell of extract_hierarchical.py: Null for dash/empty,
integer, or float (the float carries its comma-stripped literal). -/
inductive HCell where
  | hNull : HCell
  | hInt : Int → HCell
  | hFloat : List Char → HCell
  deriving DecidableEq, Repr

/-- Per-token value parse of extract_hierarchical.py lines 64-76:
strip commas; `-` or empty → Null; else try `int`, then `float`;
a token parsing as neither is skipped (`none`). -/
def hToken (token : List Char) : Option HCell :=
  let t := token.filter (fun c => c ≠ ',')
  if t = ['-'] ∨ t = [] then some HCell.hNull
  else
    match intLit? t with
    | some n => some (HCell.hInt n)
    | none => if isFloatLit t then some (HCell.hFloat t) else none

/-- Padding and truncation of extract_hierarchical.py lines 78-83:
append Null while fewer than 7 values, then keep only the first 7. -/
def padTo7 (values : List HCell) : List HCell :=
  (values ++ List.replicate (7 - values.length) HCell.hNull).take 7

/-- A row of extract_hierarchical.py line 86:
`[current_region, current_section, found_sex] + values`. -/
structure HRow where
  region : Option (List Char)
  sect : Option (List Char)
  sex : List Char
  values : List HCell
  deriving DecidableEq, Repr

/-- Loop state of `extract_hierarchical_table` (extract_hierarchical.py
lines 31-87). -/
structure HState where
  current_region : Option (List Char)
  current_section : Option (List Char)
  rows : List HRow
  deriving DecidableEq, Repr

/-- The `sex_categories` of extract_hierarchical.py line 48, in scan order. -/
def sex_categories : List (List Char) :=
  ["ALL SEXES", "MALE", "FEMALE", "TRANSGENDER"].map String.toList

/-- One iteration of the data-row loop of `extract_hierarchical_table`
(extract_hierarchical.py lines 36-87): case-sensitive region/section
detection, then sex-prefixed data rows. -/
def stepH (st : HState) (line : List Char) : HState :=
  if containsSub line ("DISTRICT".toList) || containsSub line ("SUB-DIVISION".toList) then
    { st with current_region := some line }
  else if line = "OVERALL".toList ∨ line = "RURAL".toList ∨ line = "URBAN".toList then
    { st with current_section := some line }
  else
    match sex_categories.find? (fun sex => sex.isPrefixOf line) with
    | some found_sex =>
      let data_part := stripWS (line.drop found_sex.length)
      let values := (splitWS data_part).filterMap hToken
      { st with rows := st.rows ++
          [⟨st.current_region, st.current_section, found_sex, padTo7 values⟩] }
    | none => st

/-- The `extract_hierarchical_table`'s row loop over all lines in order. -/
def extract_hierarchical_table (lines : List (List Char)) : HState :=
  lines.foldl stepH ⟨none, none, []⟩

/-- pandas `Series.ffill` on an optional-valued column: each missing
entry takes the most recent present value (extract_hierarchical.py
lines 95-96). -/
def ffill (carry : Option α) : List (Option α) → List (Option α)
  | [] => []
  | x :: xs =>
    match x with
    | some v => some v :: ffill (some v) xs
    | none => carry :: ffill carry xs

/-- pandas `DataFrame.drop_duplicates` (extract_universal.py line 440):
drop exact-duplicate rows, keeping the first occurrence, preserving
order; `seen` accumulates rows already emitted. -/
def dropDupAux [DecidableEq α] (seen : List α) : List α → List α
  | [] => []
  | x :: xs => if x ∈ seen then dropDupAux seen xs else x :: dropDupAux (x :: seen) xs

/-- The `df.drop_duplicates()` applied to the assembled record list. -/
def drop_duplicates [DecidableEq α] (l : List α) : List α := dropDupAux [] l

/-- The `is_scanned_pdf` (extract_smart_pdf.py lines 62-84) as a function of
the outcome of opening the document and extracting first-page text:
`Except.error` models any exception (then the document is treated as
scanned), `Except.ok none` models `extract_text()` returning `None`,
and `Except.ok (some text)` models extracted text. -/
def is_scanned_pdf (doc : Except Unit (Option (List Char))) : Bool :=
  match doc with
  | Except.error _ => true
  | Except.ok none => true
  | Except.ok (some text) =>
    if text ≠ [] ∧ 100 < (stripWS text).length then false else true

/-- Claim C2: number normalization implements the ordered decision table:
dash → Null; all-digit-after-cleaning → Integer of the numeric value of the
cleaned string; decimal form (one decimal point, otherwise digits) → Float;
every other token is retained as Text.  `parse_token` is total, so no token
is discarded and normalization never raises. -/
theorem c2_normalizer_decision_table (part : List Char) :
    parse_token part = c2_decision_table part := by
  unfold parse_token parse_token_body c2_decision_table
  by_cases hdash : cleanU part = ['-'] ∨ cleanU part = ['—']
  · rw [if_pos hdash, if_pos hdash]
  · rw [if_neg hdash, if_neg hdash]
    by_cases hdot : '.' ∈ cleanU part
    · have hBf : ¬(cleanU part ≠ [] ∧ (cleanU part).all Char.isDigit = true) := by
        rintro ⟨-, hall⟩
        exact absurd (List.all_eq_true.mp hall '.' hdot) (by decide)
      rw [if_neg hBf]
      by_cases hC : (List.filter (fun c => decide (c ≠ '.')) (cleanU part)) ≠ [] ∧
          (List.filter (fun c => decide (c ≠ '.')) (cleanU part)).all Char.isDigit = true
      · rw [if_pos hC, if_pos hdot]
        by_cases hcnt : List.count '.' (cleanU part) = 1
        · rw [if_pos hcnt, if_pos ⟨hcnt, hC.2, hC.1⟩]
        · rw [if_neg hcnt, if_neg (fun hF => hcnt hF.1)]
      · rw [if_neg hC, if_neg (fun hF => hC ⟨hF.2.2, hF.2.1⟩)]
    · have hfe : List.filter (fun c => decide (c ≠ '.')) (cleanU part) = cleanU part := by
        apply List.filter_eq_self.mpr
        intro a ha
        exact decide_eq_true (fun h => hdot (h ▸ ha))
      have hcnt0 : List.count '.' (cleanU part) = 0 := List.count_eq_zero.mpr hdot
      by_cases hB : cleanU part ≠ [] ∧ (cleanU part).all Char.isDigit = true
      · rw [if_pos (by rw [hfe]; exact hB), if_neg hdot, if_pos hB]
      · rw [if_neg (fun hC => hB (by rw [hfe] at hC; exact hC)), if_neg hB,
           if_neg (fun hF => by omega)]

/-- Claim C4 counterexample: not every em/en-dash token is normalized to
Null.  An en-dash token (U+2013) is kept as Text by extract_universal and
skipped by extract_smart_pdf (they recognize only `-` and the em-dash
`—`), and extract_hierarchical (hToken, line 66: `token == '-' or
token == ''`) drops even an em-dash token instead of appending Null. -/
theorem c4_endash_counterexample :
    parse_token ['–'] = Cell.textV ['–'] ∧ Cell.textV ['–'] ≠ Cell.nullV ∧
    smartParseToken ['–'] = none ∧
    hToken ['—'] = none := by decide

/-- Claim C4 (amended): in extract_universal (`parse_token`) and
extract_smart_pdf (`smartParseToken`, where `some none` is an appended
Null) every `-` or em-dash `—` token normalizes to Null — never zero,
never Text, never dropped; in extract_hierarchical (`hToken`) only `-`
yields Null, while an em-dash or en-dash token is dropped; an en-dash is
nowhere recognized as a dash. -/
theorem c4_dash_null_amended :
    parse_token ['-'] = Cell.nullV ∧ parse_token ['—'] = Cell.nullV ∧
    smartParseToken ['-'] = some none ∧ smartParseToken ['—'] = some none ∧
    hToken ['-'] = some HCell.hNull ∧
    hToken ['—'] = none ∧ hToken ['–'] = none ∧
    parse_token ['–'] = Cell.textV ['–'] ∧ smartParseToken ['–'] = none := by
  decide

/-- The confusable character set named by the spec:
`O, o, l, I, S, Z, z, s`. -/
def isConfusable (c : Char) : Bool :=
  c = 'O' || c = 'o' || c = 'l' || c = 'I' || c = 'S' || c = 'Z' || c = 'z' || c = 's'

/-- The characters extract_universal.py actually substitutes
(`O, o, l, I, S, Z`; not `z`, not `s`). -/
def isConfusableU (c : Char) : Bool :=
  c = 'O' || c = 'o' || c = 'l' || c = 'I' || c = 'S' || c = 'Z'

/-- Characters that can be part of a number-candidate token: the
confusable set, digits, separators, a decimal point, and the two dashes. -/
def numberCandidateChar (c : Char) : Bool :=
  isConfusable c || c.isDigit || c = ',' || c = ' ' || c = '.' || c = '-' || c = '—'

theorem substS_of_digit {c : Char} (h : c.isDigit = true) : substS c = c := by
  unfold substS
  split_ifs with h1 h2 h3 h4 h5 h6 h7 h8 <;> simp_all

theorem substU_of_digit {c : Char} (h : c.isDigit = true) : substU c = c := by
  unfold substU
  split_ifs with h1 h2 h3 h4 h5 h6 <;> simp_all

theorem substS_isDigit {c : Char} (h : isConfusable c = true ∨ c.isDigit = true) :
    (substS c).isDigit = true := by
  rcases h with h | h
  · simp only [isConfusable, Bool.or_eq_true, decide_eq_true_eq] at h
    rcases h with (((((((h | h) | h) | h) | h) | h) | h) | h) <;> (subst h; decide)
  · rw [substS_of_digit h]; exact h

theorem substU_isDigit {c : Char} (h : isConfusableU c = true ∨ c.isDigit = true) :
    (substU c).isDigit = true := by
  rcases h with h | h
  · simp only [isConfusableU, Bool.or_eq_true, decide_eq_true_eq] at h
    rcases h with (((((h | h) | h) | h) | h) | h) <;> (subst h; decide)
  · rw [substU_of_digit h]; exact h

theorem parse_token_text_of_noncandidate {t : List Char}
    (h : ∃ c ∈ t, numberCandidateChar c = false) :
    parse_token t = Cell.textV t := by
  obtain ⟨c₀, hmem, hcand⟩ := h
  have hdig : c₀.isDigit = false := by
    by_contra hd
    simp only [Bool.not_eq_false] at hd
    have : numberCandidateChar c₀ = true := by simp [numberCandidateChar, hd]
    rw [this] at hcand
    cases hcand
  have hconf : isConfusable c₀ = false := by
    by_contra hd
    simp only [Bool.not_eq_false] at hd
    have : numberCandidateChar c₀ = true := by simp [numberCandidateChar, hd]
    rw [this] at hcand
    cases hcand
  have hcm : c₀ ≠ ',' := fun h => absurd (h ▸ hcand) (by decide)
  have hsp : c₀ ≠ ' ' := fun h => absurd (h ▸ hcand) (by decide)
  have hdt : c₀ ≠ '.' := fun h => absurd (h ▸ hcand) (by decide)
  have hdsh : c₀ ≠ '-' := fun h => absurd (h ▸ hcand) (by decide)
  have hem : c₀ ≠ '—' := fun h => absurd (h ▸ hcand) (by decide)
  have hsub : substU c₀ = c₀ := by
    unfold substU
    split_ifs with h1 h2 h3 h4 h5 h6 <;> simp_all [isConfusable]
  have hc0mem : c₀ ∈ cleanU t := by
    unfold cleanU
    have hf : c₀ ∈ t.filter (fun c => decide (c ≠ ',') && decide (c ≠ ' ')) :=
      List.mem_filter.mpr ⟨hmem, by simp [hcm, hsp]⟩
    have := List.mem_map_of_mem substU hf
    rwa [hsub] at this
  unfold parse_token parse_token_body
  rw [if_neg, if_neg]
  · rintro ⟨-, hall⟩
    have hd : c₀ ∈ (cleanU t).filter (fun c => decide (c ≠ '.')) :=
      List.mem_filter.mpr ⟨hc0mem, by simp [hdt]⟩
    have := List.all_eq_true.mp hall c₀ hd
    rw [hdig] at this
    cases this
  · rintro (h | h) <;> rw [h] at hc0mem <;> simp at hc0mem
    · exact hdsh hc0mem
    · exact hem hc0mem

theorem smartParseToken_confusable {u : List Char} (hne : u ≠ [])
    (hall : ∀ c ∈ u, isConfusable c = true ∨ c.isDigit = true) :
    smartParseToken u = some (some (digitsVal (u.map substS))) := by
  unfold smartParseToken
  have hfilter : u.filter (fun c => decide (c ≠ ',')) = u := by
    apply List.filter_eq_self.mpr
    intro a ha
    have h := hall a ha
    simp only [decide_eq_true_eq]
    rintro rfl
    rcases h with h | h <;> exact absurd h (by decide)
  rw [hfilter]
  have hmap : ∀ x ∈ u.map substS, x.isDigit = true := by
    intro x hx
    obtain ⟨c, hc, rfl⟩ := List.mem_map.mp hx
    exact substS_isDigit (hall c hc)
  have hnd : ¬(u.map substS = ['-'] ∨ u.map substS = ['—']) := by
    rintro (h | h) <;> rw [h] at hmap <;>
      exact absurd (hmap _ (List.mem_singleton_self _)) (by decide)
  rw [if_neg hnd, if_pos ⟨by simp only [ne_eq, List.map_eq_nil_iff]; exact hne,
      List.all_eq_true.mpr hmap⟩]

theorem parse_token_int_of_confusableU {v : List Char} (hne : v ≠ [])
    (hall : ∀ c ∈ v, isConfusableU c = true ∨ c.isDigit = true) :
    parse_token v = Cell.intV (digitsVal (v.map substU)) := by
  unfold parse_token parse_token_body
  have hfilter : v.filter (fun c => decide (c ≠ ',') && decide (c ≠ ' ')) = v := by
    apply List.filter_eq_self.mpr
    intro a ha
    have h := hall a ha
    rcases h with h | h
    · simp only [isConfusableU, Bool.or_eq_true, decide_eq_true_eq] at h
      rcases h with (((((h | h) | h) | h) | h) | h) <;> subst h <;> decide
    · cases ha2 : decide (a = ',') with
      | true => exact absurd (of_decide_eq_true ha2 ▸ h) (by decide)
      | false =>
        cases ha3 : decide (a = ' ') with
        | true => exact absurd (of_decide_eq_true ha3 ▸ h) (by decide)
        | false => simp [of_decide_eq_false ha2, of_decide_eq_false ha3]
  have hcleq : cleanU v = v.map substU := by
    unfold cleanU
    rw [hfilter]
  have hmap : ∀ x ∈ v.map substU, x.isDigit = true := by
    intro x hx
    obtain ⟨c, hc, rfl⟩ := List.mem_map.mp hx
    exact substU_isDigit (hall c hc)
  have hdotnot : '.' ∉ cleanU v := by
    rw [hcleq]
    intro hd
    exact absurd (hmap _ hd) (by decide)
  have hfe : (cleanU v).filter (fun c => decide (c ≠ '.')) = cleanU v := by
    apply List.filter_eq_self.mpr
    intro a ha
    exact decide_eq_true (fun h => hdotnot (h ▸ ha))
  have hnd : ¬(cleanU v = ['-'] ∨ cleanU v = ['—']) := by
    rw [hcleq]
    rintro (h | h) <;> rw [h] at hmap <;>
      exact absurd (hmap _ (List.mem_singleton_self _)) (by decide)
  have hnemap : cleanU v ≠ [] := by
    rw [hcleq]
    simp only [ne_eq, List.map_eq_nil_iff]
    exact hne
  rw [if_neg hnd, if_pos ⟨by rw [hfe]; exact hnemap,
      by rw [hfe]; rw [hcleq]; exact List.all_eq_true.mpr hmap⟩,
    if_neg hdotnot, hcleq]

/-- Claim C3 counterexample: the OCR substitution is NOT restricted to
tokens consisting solely of confusable characters plus digits, and the
is-number classification does NOT precede substitution.  The token
"1.5O" contains a decimal point (so it is not made of confusables and
digits only, and as a raw token it is neither a dash, nor all-digit
after separator stripping, nor of decimal form), yet extract_universal
substitutes `O→0` first and then classifies the result, producing
Float("1.50") instead of retaining the token as Text. -/
theorem c3_substitution_counterexample :
    parse_token ("1.5O".toList) = Cell.floatV ("1.50".toList) ∧
    ("1.5O".toList.all (fun c => isConfusable c || c.isDigit)) = false ∧
    Cell.floatV ("1.50".toList) ≠ Cell.textV ("1.5O".toList) := by decide

/-- Claim C3 (amended): the substitution is applied to every token before
classification, but it can only affect tokens whose characters are all
number-candidate characters (confusables, digits, separators, decimal
point, dashes): a token containing any other character — e.g. "MALE" —
is always retained as Text, completely unaltered; a nonempty token made
only of confusables and digits is parsed as the Integer read off the
substituted digits (extract_smart_pdf substitutes all eight confusables;
extract_universal substitutes only `O,o,l,I,S,Z`). -/
theorem c3_substitution_number_candidates
    (t u v : List Char)
    (ht : ∃ c ∈ t, numberCandidateChar c = false)
    (hu1 : u ≠ []) (hu2 : ∀ c ∈ u, isConfusable c = true ∨ c.isDigit = true)
    (hv1 : v ≠ []) (hv2 : ∀ c ∈ v, isConfusableU c = true ∨ c.isDigit = true) :
    parse_token t = Cell.textV t ∧
    parse_token ("MALE".toList) = Cell.textV ("MALE".toList) ∧
    smartParseToken u = some (some (digitsVal (u.map substS))) ∧
    parse_token v = Cell.intV (digitsVal (v.map substU)) :=
  ⟨parse_token_text_of_noncandidate ht, by decide,
   smartParseToken_confusable hu1 hu2, parse_token_int_of_confusableU hv1 hv2⟩

/-- Witness for the amended claim C3 at concrete tokens. -/
theorem c3_substitution_number_candidates_witness :
    parse_token ("MALE".toList) = Cell.textV ("MALE".toList) ∧
    smartParseToken ("SOS".toList) = some (some 505) ∧
    parse_token ("1OO".toList) = Cell.intV 100 := by
  have h := c3_substitution_number_candidates ("MALE".toList) ("SOS".toList) ("1OO".toList)
    (by decide) (by decide) (by decide) (by decide) (by decide)
  exact ⟨h.1, h.2.2.1, h.2.2.2⟩

theorem combineValues_english_ints (l : List Cell)
    (h : ∀ c ∈ l, ∃ n, c = Cell.intV n) : combineValues false l = l := by
  have H : ∀ (n : Nat) (l : List Cell), l.length ≤ n →
      (∀ c ∈ l, ∃ m, c = Cell.intV m) → combineValues false l = l := by
    intro n
    induction n with
    | zero =>
      intro l hl _
      rcases l with _ | ⟨a, t⟩
      · rfl
      · simp at hl
    | succ n ih =>
      intro l hl h
      rcases l with _ | ⟨v, _ | ⟨w, _ | ⟨x, rest⟩⟩⟩
      · rfl
      · rfl
      · obtain ⟨nv, rfl⟩ := h v (by simp)
        obtain ⟨nw, rfl⟩ := h w (by simp)
        simp [combineValues, isAllSexes]
      · obtain ⟨nv, rfl⟩ := h v (by simp)
        obtain ⟨nw, rfl⟩ := h w (by simp)
        have hw := ih (Cell.intV nw :: x :: rest)
          (by simp at hl ⊢; omega)
          (fun c hc => h c (List.mem_cons_of_mem _ hc))
        have hstep : combineValues false (Cell.intV nv :: Cell.intV nw :: x :: rest)
            = Cell.intV nv :: combineValues false (Cell.intV nw :: x :: rest) := by
          simp only [combineValues]
          rw [if_neg (by simp [isAllSexes]), if_neg (by simp)]
        rw [hstep, hw]
  exact H l.length l le_rfl h

/-- Claim C1: French-grouping merge with magnitude caps: a leading parsed
integer `< 1000` immediately followed by 3-digit groups in `100..999` is
merged by digit concatenation; a leading value `≤ 4` merges at most 2
following groups and a leading value in `[5, 999]` merges at most 1; the
spec's three examples hold; under English format the integer-merging is
never applied and `"1,435,332"` normalizes directly to Integer 1435332. -/
theorem c1_french_grouping_merge
    (a b g1 g2 g3 : Nat) (rest l : List Cell)
    (ha : a ≤ 4) (hb1 : 5 ≤ b) (hb2 : b ≤ 999)
    (hg1 : 100 ≤ g1 ∧ g1 ≤ 999) (hg2 : 100 ≤ g2 ∧ g2 ≤ 999)
    (hg3 : 100 ≤ g3 ∧ g3 ≤ 999)
    (hl : ∀ c ∈ l, ∃ n, c = Cell.intV n) :
    combineValues true [Cell.intV 1, Cell.intV 132, Cell.intV 655]
      = [Cell.intV 1132655] ∧
    combineValues true [Cell.intV 71, Cell.intV 148] = [Cell.intV 71148] ∧
    combineValues true [Cell.intV 350, Cell.intV 731] = [Cell.intV 350731] ∧
    combineValues true
        (Cell.intV a :: Cell.intV g1 :: Cell.intV g2 :: Cell.intV g3 :: rest)
      = Cell.intV ((a * 1000 + g1) * 1000 + g2) ::
          combineValues true (Cell.intV g3 :: rest) ∧
    combineValues true (Cell.intV b :: Cell.intV g1 :: rest)
      = Cell.intV (b * 1000 + g1) :: combineValues true rest ∧
    combineValues false l = l ∧
    parse_token ("1,435,332".toList) = Cell.intV 1435332 := by
  refine ⟨by decide, by decide, by decide, ?_, ?_, combineValues_english_ints l hl, by decide⟩
  · simp only [combineValues]
    rw [if_neg (by simp [isAllSexes]),
      if_pos ⟨trivial, by omega, hg1.1, hg1.2⟩, if_pos ha, if_pos ⟨hg2.1, hg2.2⟩]
  · rcases rest with _ | ⟨x, rest'⟩
    · simp only [combineValues]
      rw [if_neg (by simp [isAllSexes]), if_pos ⟨trivial, by omega, hg1.1, hg1.2⟩]
    · simp only [combineValues]
      rw [if_neg (by simp [isAllSexes]),
        if_pos ⟨trivial, by omega, hg1.1, hg1.2⟩, if_neg (by omega)]

/-- Witness for claim C1 at concrete inputs. -/
theorem c1_french_grouping_merge_witness :
    combineValues true
        [Cell.intV 2, Cell.intV 100, Cell.intV 200, Cell.intV 300]
      = [Cell.intV 2100200, Cell.intV 300] ∧
    combineValues true [Cell.intV 350, Cell.intV 100] = [Cell.intV 350100] ∧
    combineValues false [Cell.intV 1, Cell.intV 132, Cell.intV 655]
      = [Cell.intV 1, Cell.intV 132, Cell.intV 655] := by
  have h := c1_french_grouping_merge 2 350 100 200 300 ([] : List Cell)
    [Cell.intV 1, Cell.intV 132, Cell.intV 655]
    (by decide) (by decide) (by decide) (by decide) (by decide) (by decide)
    (by intro c hc; simp at hc; rcases hc with rfl | rfl | rfl <;> exact ⟨_, rfl⟩)
  refine ⟨?_, ?_, h.2.2.2.2.2.1⟩
  · have h4 := h.2.2.2.1
    simpa [combineValues] using h4
  · have h5 := h.2.2.2.2.1
    simpa [combineValues] using h5

theorem choose_best_header_first (pre : List (List Char)) (c : List Char)
    (post : List (List Char)) (hpre : ∀ x ∈ pre, keyword_matches x < 3)
    (hc : 3 ≤ keyword_matches c) :
    choose_best_header (pre ++ c :: post) = some c := by
  induction pre with
  | nil =>
    unfold choose_best_header
    rw [List.nil_append]
    exact List.find?_cons_of_pos _ (decide_eq_true hc)
  | cons x xs ih =>
    unfold choose_best_header at ih ⊢
    rw [List.cons_append, List.find?_cons_of_neg]
    · exact ih (fun y hy => hpre y (List.mem_cons_of_mem _ hy))
    · have := hpre x (List.mem_cons_self _ _)
      simp only [decide_eq_true_eq]
      omega

/-- Claim C9: header selection is first-qualifying, not best-scoring: the
first candidate in document order with at least 3 column-keyword matches
is chosen, even when a later candidate scores higher. -/
theorem c9_header_first_qualifying
    (pre post : List (List Char)) (c : List Char)
    (hpre : ∀ x ∈ pre, keyword_matches x < 3)
    (hc : 3 ≤ keyword_matches c) :
    choose_best_header (pre ++ c :: post) = some c ∧
    (∀ c' ∈ post, keyword_matches c ≤ keyword_matches c' →
      choose_best_header (pre ++ c :: post) = some c) :=
  ⟨choose_best_header_first pre c post hpre hc,
   fun _ _ _ => choose_best_header_first pre c post hpre hc⟩

/-- Witness for claim C9: the earlier qualifying candidate (4 keyword
matches) wins over a later higher-scoring one (11 matches). -/
theorem c9_header_first_qualifying_witness :
    choose_best_header
        (["TABLE OF CONTENTS", "AREA SEX TOTAL COUNT",
          "AREA SEX TOTAL MUSLIM CHRISTIAN HINDU MALE FEMALE COUNT VOTES VOTERS"
         ].map String.toList)
      = some ("AREA SEX TOTAL COUNT".toList) ∧
    keyword_matches ("AREA SEX TOTAL COUNT".toList) ≤ keyword_matches
      "AREA SEX TOTAL MUSLIM CHRISTIAN HINDU MALE FEMALE COUNT VOTES VOTERS".toList := by
  refine ⟨?_, by decide⟩
  exact (c9_header_first_qualifying ["TABLE OF CONTENTS".toList]
    ["AREA SEX TOTAL MUSLIM CHRISTIAN HINDU MALE FEMALE COUNT VOTES VOTERS".toList]
    "AREA SEX TOTAL COUNT".toList (by decide) (by decide)).1

/-- A row that the classification loop of `smart_parse_table` treats as a
region marker: not header-classified, section-flagged, and containing
DISTRICT or DIVISION. -/
def isRegionRowU (t : List Char) : Bool :=
  !(has_header t && (numbers_count t == 0)) && is_section t &&
    (containsSub (upperL t) "DISTRICT".toList ||
     containsSub (upperL t) "DIVISION".toList)

/-- Claim C5 counterexample: in `parse_census_data` (extract_smart_pdf.py)
a new region line does NOT clear the held section: after
[Region "DISTRICT D1", Section "URBAN", Region "DISTRICT D2"], the data
row is stamped with section "URBAN", not an empty/unset section. -/
theorem c5_smart_keeps_section_counterexample :
    (parse_census_data (["DISTRICT D1", "URBAN", "DISTRICT D2",
        "MALE 1000 2000 3000 4000 5000 6000 7000"].map String.toList)).parsed_data
      = [⟨"DISTRICT D2".toList, "URBAN".toList, "MALE".toList,
          [some 1000, some 2000, some 3000, some 4000, some 5000, some 6000,
           some 7000]⟩] ∧
    "URBAN".toList ≠ ([] : List Char) := ⟨rfl, by decide⟩

/-- Claim C5 (amended): in `smart_parse_table` (extract_universal.py) a
row classified as a region marker sets the region and resets the held
section to empty, so a data row after [Region, Section, Region] is
stamped with an unset section; in `parse_census_data`
(extract_smart_pdf.py) the held section is retained across new region
lines. -/
theorem c5_region_clears_section
    (st : UState) (t : List Char) (h : isRegionRowU t = true) :
    (stepU st t).current_section = none ∧
    (stepU st t).current_region = some t ∧
    (smart_parse_rows (["DIVISION D1", "URBAN", "DIVISION D2",
        "MALE 100 200 300"].map String.toList)).data_candidates
      = [⟨some ("DIVISION D2".toList), none, "MALE 100 200 300".toList⟩] ∧
    (∀ (sst : SState) (u : List Char),
      smart_region_keywords.any (fun kw => containsSub (upperL u) kw) = true →
      step_smart sst u = { sst with current_region := some u }) := by
  unfold isRegionRowU at h
  rw [Bool.and_eq_true, Bool.and_eq_true] at h
  obtain ⟨⟨hnh, hsec⟩, hdd⟩ := h
  rw [Bool.not_eq_true'] at hnh
  have hstep : stepU st t =
      { st with current_region := some t, current_section := none } := by
    unfold stepU
    rw [if_neg (by simp [hnh]), if_pos hsec, if_pos hdd]
  refine ⟨by rw [hstep], by rw [hstep], rfl, ?_⟩
  intro sst u hu
  unfold step_smart
  rw [if_pos hu]

/-- Witness for the amended claim C5 at a concrete region row. -/
theorem c5_region_clears_section_witness :
    (stepU ⟨some ("DIVISION D1".toList), some ("URBAN".toList), [], []⟩
        "DIVISION D2".toList).current_section = none ∧
    (stepU ⟨some ("DIVISION D1".toList), some ("URBAN".toList), [], []⟩
        "DIVISION D2".toList).current_region = some ("DIVISION D2".toList) := by
  have h := c5_region_clears_section
    ⟨some ("DIVISION D1".toList), some ("URBAN".toList), [], []⟩
    "DIVISION D2".toList (by decide)
  exact ⟨h.1, h.2.1⟩

/-- Claim C6 counterexample: in `smart_parse_table` (extract_universal.py)
a held section is NOT retained until a new section marker: a region
marker resets it.  After [Section "URBAN", Region "DIVISION D3"], the
data row is stamped with an empty section although "URBAN" is the most
recently seen section string and no new section marker appeared. -/
theorem c6_universal_section_reset_counterexample :
    (smart_parse_rows (["URBAN", "DIVISION D3",
        "FEMALE 100 200 300"].map String.toList)).data_candidates
      = [⟨some ("DIVISION D3".toList), none, "FEMALE 100 200 300".toList⟩] ∧
    (none : Option (List Char)) ≠ some ("URBAN".toList) := ⟨rfl, by decide⟩

/-- Claim C6 (amended): every data row is stamped with the currently held
region and section; the region, once set, is retained until overwritten
by a new region marker; the section is retained until overwritten by a
new section marker OR cleared by a new region marker (extract_universal);
in extract_hierarchical both fields are only ever retained or
overwritten, never cleared. -/
theorem c6_forward_fill :
    (smart_parse_rows (["DIVISION A", "RURAL", "MALE 100 50",
        "FEMALE 100 50"].map String.toList)).data_candidates
      = [⟨some ("DIVISION A".toList), some ("RURAL".toList), "MALE 100 50".toList⟩,
         ⟨some ("DIVISION A".toList), some ("RURAL".toList),
          "FEMALE 100 50".toList⟩] ∧
    (∀ (st : UState) (t : List Char),
      (stepU st t).current_region = st.current_region ∨
      (stepU st t).current_region = some t) ∧
    (∀ (st : UState) (t : List Char),
      (stepU st t).current_section = st.current_section ∨
      (stepU st t).current_section = some t ∨
      ((stepU st t).current_section = none ∧
        (stepU st t).current_region = some t)) ∧
    (∀ (st : HState) (t : List Char),
      ((stepH st t).current_region = st.current_region ∨
       (stepH st t).current_region = some t) ∧
      ((stepH st t).current_section = st.current_section ∨
       (stepH st t).current_section = some t)) := by
  refine ⟨rfl, ?_, ?_, ?_⟩
  · intro st t
    unfold stepU
    split_ifs <;> simp
  · intro st t
    unfold stepU
    split_ifs <;> simp
  · intro st t
    unfold stepH
    split_ifs
    · simp
    · simp
    · rcases hfs : List.find? (fun sex => sex.isPrefixOf t) sex_categories with _ | fs
      · simp [hfs]
      · simp [hfs]

theorem dropDupAux_congr [DecidableEq α] :
    ∀ (l seen1 seen2 : List α), (∀ a, a ∈ seen1 ↔ a ∈ seen2) →
      dropDupAux seen1 l = dropDupAux seen2 l := by
  intro l
  induction l with
  | nil => intro _ _ _; rfl
  | cons x xs ih =>
    intro seen1 seen2 hiff
    unfold dropDupAux
    by_cases hx : x ∈ seen1
    · rw [if_pos hx, if_pos ((hiff x).mp hx)]
      exact ih seen1 seen2 hiff
    · rw [if_neg hx, if_neg (fun h => hx ((hiff x).mpr h))]
      refine congrArg (x :: ·) (ih _ _ ?_)
      intro a
      simp only [List.mem_cons]
      exact or_congr Iff.rfl (hiff a)

theorem dropDupAux_cons_seen [DecidableEq α] :
    ∀ (l : List α) (seen : List α) (x : α),
      dropDupAux (x :: seen) l = dropDupAux seen (l.filter (fun y => decide (y ≠ x))) := by
  intro l
  induction l with
  | nil => intro _ _; rfl
  | cons y ys ih =>
    intro seen x
    by_cases hyx : y = x
    · subst hyx
      show dropDupAux (y :: seen) (y :: ys) = dropDupAux seen ((y :: ys).filter _)
      rw [List.filter_cons_of_neg (by simp)]
      conv_lhs => rw [dropDupAux]
      rw [if_pos (List.mem_cons_self _ _)]
      exact ih seen y
    · rw [List.filter_cons_of_pos (by simp [hyx])]
      by_cases hys : y ∈ seen
      · conv_lhs => rw [dropDupAux]
        conv_rhs => rw [dropDupAux]
        rw [if_pos (List.mem_cons_of_mem _ hys), if_pos hys]
        exact ih seen x
      · conv_lhs => rw [dropDupAux]
        conv_rhs => rw [dropDupAux]
        rw [if_neg (by simp [hyx, hys]), if_neg hys]
        refine congrArg (y :: ·) ?_
        calc dropDupAux (y :: x :: seen) ys
            = dropDupAux (x :: y :: seen) ys :=
              dropDupAux_congr ys _ _ (fun a => by simp [List.mem_cons]; tauto)
          _ = dropDupAux (y :: seen) (ys.filter (fun z => decide (z ≠ x))) :=
              ih (y :: seen) x

theorem drop_duplicates_cons [DecidableEq α] (x : α) (l : List α) :
    drop_duplicates (x :: l)
      = x :: drop_duplicates (l.filter (fun y => decide (y ≠ x))) := by
  show dropDupAux [] (x :: l) = x :: dropDupAux [] (l.filter (fun y => decide (y ≠ x)))
  conv_lhs => rw [dropDupAux]
  rw [if_neg (List.not_mem_nil x)]
  exact congrArg (x :: ·) (dropDupAux_cons_seen l [] x)

theorem dropDupAux_sublist [DecidableEq α] :
    ∀ (l seen : List α), (dropDupAux seen l).Sublist l := by
  intro l
  induction l with
  | nil => intro _; exact List.Sublist.refl []
  | cons x xs ih =>
    intro seen
    unfold dropDupAux
    by_cases hx : x ∈ seen
    · rw [if_pos hx]
      exact (ih seen).cons x
    · rw [if_neg hx]
      exact (ih (x :: seen)).cons₂ x

theorem dropDupAux_nodup [DecidableEq α] :
    ∀ (l seen : List α), (dropDupAux seen l).Nodup ∧
      ∀ x ∈ dropDupAux seen l, x ∉ seen := by
  intro l
  induction l with
  | nil => intro _; exact ⟨List.nodup_nil, by simp [dropDupAux]⟩
  | cons x xs ih =>
    intro seen
    unfold dropDupAux
    by_cases hx : x ∈ seen
    · rw [if_pos hx]
      exact ih seen
    · rw [if_neg hx]
      obtain ⟨hnd, hnm⟩ := ih (x :: seen)
      refine ⟨List.nodup_cons.mpr ⟨fun hmem => ?_, hnd⟩, ?_⟩
      · exact (hnm x hmem) (List.mem_cons_self _ _)
      · intro y hy
        rcases List.mem_cons.mp hy with rfl | hy'
        · exact hx
        · exact fun hys => (hnm y hy') (List.mem_cons_of_mem _ hys)

theorem dropDupAux_mem [DecidableEq α] :
    ∀ (l seen : List α) (x : α), x ∈ l → x ∉ seen → x ∈ dropDupAux seen l := by
  intro l
  induction l with
  | nil => intro _ x hx _; cases hx
  | cons y ys ih =>
    intro seen x hx hseen
    unfold dropDupAux
    by_cases hy : y ∈ seen
    · rw [if_pos hy]
      rcases List.mem_cons.mp hx with rfl | hx'
      · exact absurd hy hseen
      · exact ih seen x hx' hseen
    · rw [if_neg hy]
      rcases List.mem_cons.mp hx with rfl | hx'
      · exact List.mem_cons_self _ _
      · by_cases hxy : x = y
        · subst hxy
          exact List.mem_cons_self _ _
        · refine List.mem_cons_of_mem _ (ih (y :: seen) x hx' ?_)
          simp [hxy, hseen]

theorem drop_duplicates_of_nodup [DecidableEq α] :
    ∀ (l : List α), l.Nodup → drop_duplicates l = l := by
  intro l
  induction l with
  | nil => intro _; rfl
  | cons x xs ih =>
    intro hnd
    obtain ⟨hx, hxs⟩ := List.nodup_cons.mp hnd
    rw [drop_duplicates_cons]
    have hfe : xs.filter (fun y => decide (y ≠ x)) = xs :=
      List.filter_eq_self.mpr (fun a ha => decide_eq_true (fun h => hx (h ▸ ha)))
    rw [hfe, ih hxs]

/-- Claim C7: deduplication and idempotence of assembly
(`df.drop_duplicates()`, extract_universal.py lines 429-440): exact
duplicate records are dropped keeping the first occurrence (the head of
the list always survives, later copies are removed), the surviving
records are a sublist of the input (original order preserved), every
record occurring in the input occurs exactly once in the output,
identical content fed twice yields exactly one record, and running the
deduplication twice equals running it once. -/
theorem c7_dedup_assembly
    (l : List (List Cell)) (r x : List Cell) (hx : x ∈ l) :
    drop_duplicates (drop_duplicates l) = drop_duplicates l ∧
    @List.count (List Cell) instBEqOfDecidableEq x (drop_duplicates l) = 1 ∧
    (drop_duplicates l).Sublist l ∧
    (drop_duplicates l).Nodup ∧
    drop_duplicates (r :: l)
      = r :: drop_duplicates (l.filter (fun y => decide (y ≠ r))) ∧
    drop_duplicates [r, r] = [r] := by
  have hnd : (drop_duplicates l).Nodup := (dropDupAux_nodup l []).1
  refine ⟨drop_duplicates_of_nodup _ hnd, ?_, dropDupAux_sublist l [],
    hnd, drop_duplicates_cons r l, ?_⟩
  · exact List.count_eq_one_of_mem hnd
      (dropDupAux_mem l [] x hx (List.not_mem_nil x))
  · rw [drop_duplicates_cons]
    rw [List.filter_cons_of_neg (by simp)]
    rfl

/-- Witness for claim C7 at a concrete record list. -/
theorem c7_dedup_assembly_witness :
    drop_duplicates (drop_duplicates
        [[Cell.intV 1], [Cell.intV 2], [Cell.intV 1]])
      = drop_duplicates [[Cell.intV 1], [Cell.intV 2], [Cell.intV 1]] ∧
    @List.count (List Cell) instBEqOfDecidableEq [Cell.intV 1]
        (drop_duplicates [[Cell.intV 1], [Cell.intV 2], [Cell.intV 1]]) = 1 ∧
    drop_duplicates [[Cell.intV 9], [Cell.intV 9]] = [[Cell.intV 9]] := by
  have h := c7_dedup_assembly [[Cell.intV 1], [Cell.intV 2], [Cell.intV 1]]
    [Cell.intV 9] [Cell.intV 1] (by decide)
  exact ⟨h.1, h.2.1, h.2.2.2.2.2⟩

theorem padTo7_length (values : List HCell) : (padTo7 values).length = 7 := by
  simp [padTo7]
  omega

theorem hier_rows_values_length :
    ∀ (lines : List (List Char)) (st : HState),
      (∀ r ∈ st.rows, r.values.length = 7) →
      ∀ r ∈ (lines.foldl stepH st).rows, r.values.length = 7 := by
  intro lines
  induction lines with
  | nil => intro st h; exact h
  | cons line rest ih =>
    intro st h
    refine ih (stepH st line) ?_
    intro r hr
    unfold stepH at hr
    split_ifs at hr
    · exact h r hr
    · exact h r hr
    · rcases hfs : List.find? (fun sex => sex.isPrefixOf line) sex_categories
        with _ | fs
      · rw [hfs] at hr
        exact h r hr
      · rw [hfs] at hr
        simp only [List.mem_append, List.mem_singleton] at hr
        rcases hr with hr | rfl
        · exact h r hr
        · exact padTo7_length _

theorem smart_rows_values_length :
    ∀ (lines : List (List Char)) (st : SState),
      (∀ r ∈ st.parsed_data, r.values.length = 7) →
      ∀ r ∈ (lines.foldl step_smart st).parsed_data, r.values.length = 7 := by
  intro lines
  induction lines with
  | nil => intro st h; exact h
  | cons line rest ih =>
    intro st h
    refine ih (step_smart st line) ?_
    intro r hr
    unfold step_smart at hr
    split_ifs at hr with h1 h2 h3 h4
    · exact h r hr
    · exact h r hr
    · simp only [List.mem_append, List.mem_singleton] at hr
      rcases hr with hr | rfl
      · exact h r hr
      · simp only [List.length_take]
        omega
    · exact h r hr
    · exact h r hr

/-- Claim C8 counterexample: a recognized data row with fewer values than
the column count is NOT padded and emitted by `parse_census_data`
(extract_smart_pdf.py line 313): a MALE row with only 3 numbers yields no
record at all — the row is dropped, not padded with Null. -/
theorem c8_smart_drops_short_counterexample :
    (parse_census_data (["MALE 11 22 33"].map String.toList)).parsed_data = [] ∧
    ((splitWS ("11 22 33".toList)).filterMap smartParseToken).length = 3 :=
  ⟨rfl, rfl⟩

/-- Claim C8 (amended): in extract_hierarchical every assembled record has
exactly 7 values — shorter value sequences are padded with Null (the row
is still emitted) and longer ones are truncated; in extract_smart_pdf
emitted records also always carry exactly 7 values (truncation), but a
data row that parses to fewer than 7 numbers is dropped rather than
padded. -/
theorem c8_record_width
    (values : List HCell) (lines1 lines2 : List (List Char))
    (r : HRow) (s : SRecord)
    (hr : r ∈ (extract_hierarchical_table lines1).rows)
    (hs : s ∈ (parse_census_data lines2).parsed_data) :
    (padTo7 values).length = 7 ∧
    (values.length ≤ 7 →
      padTo7 values = values ++ List.replicate (7 - values.length) HCell.hNull) ∧
    (7 ≤ values.length → padTo7 values = values.take 7) ∧
    r.values.length = 7 ∧
    s.values.length = 7 := by
  refine ⟨padTo7_length values, ?_, ?_, ?_, ?_⟩
  · intro hle
    unfold padTo7
    refine List.take_of_length_le ?_
    simp
    omega
  · intro hge
    unfold padTo7
    have : 7 - values.length = 0 := by omega
    rw [this, List.replicate_zero, List.append_nil]
  · exact hier_rows_values_length lines1 ⟨none, none, []⟩ (by simp) r hr
  · exact smart_rows_values_length lines2 ⟨none, none, []⟩ (by simp) s hs

/-- Witness for the amended claim C8 at a concrete document line. -/
theorem c8_record_width_witness :
    (padTo7 [HCell.hInt 1, HCell.hInt 2]).length = 7 ∧
    padTo7 [HCell.hInt 1, HCell.hInt 2]
      = [HCell.hInt 1, HCell.hInt 2] ++ List.replicate 5 HCell.hNull ∧
    (⟨none, none, "MALE".toList, padTo7 [HCell.hInt 1, HCell.hInt 2]⟩
        : HRow).values.length = 7 ∧
    (⟨[], [], "MALE".toList, [some 100, some 200, some 300, some 400, some 500,
        some 600, some 700]⟩ : SRecord).values.length = 7 := by
  have h := c8_record_width [HCell.hInt 1, HCell.hInt 2]
    (["MALE 1 2"].map String.toList)
    (["MALE 100 200 300 400 500 600 700"].map String.toList)
    ⟨none, none, "MALE".toList,
      padTo7 [HCell.hInt 1, HCell.hInt 2]⟩
    ⟨[], [], "MALE".toList,
      [some 100, some 200, some 300, some 400, some 500, some 600, some 700]⟩
    (by decide) (by decide)
  exact ⟨h.1, h.2.1 (by decide), h.2.2.2.1, h.2.2.2.2⟩

/-- Claim C10: scanned-vs-born-digital classification reduces to a fixed
first-page text-length threshold: `is_scanned_pdf` returns false
(born-digital) exactly when the document opened successfully, text was
extracted from the first page, and the stripped text length is strictly
greater than 100; in every other case — including any exception while
opening or extracting — it returns true (scanned, routed to OCR). -/
theorem c10_is_scanned_threshold (doc : Except Unit (Option (List Char))) :
    is_scanned_pdf doc = false ↔
    ∃ text, doc = Except.ok (some text) ∧ 100 < (stripWS text).length := by
  cases doc with
  | error e =>
    simp [is_scanned_pdf]
  | ok o =>
    cases o with
    | none => simp [is_scanned_pdf]
    | some text =>
      show (if text ≠ [] ∧ 100 < (stripWS text).length then false else true)
          = false ↔ _
      by_cases h : text ≠ [] ∧ 100 < (stripWS text).length
      · rw [if_pos h]
        simp only [true_iff]
        exact ⟨text, rfl, h.2⟩
      · rw [if_neg h]
        simp only [Bool.true_eq_false, false_iff]
        rintro ⟨t, ht, hlen⟩
        obtain rfl : t = text := by
          injection ht with h1
          injection h1 with h2
          exact h2.symm
        refine h ⟨?_, hlen⟩
        rintro rfl
        simp [stripWS] at hlen
